import Mathlib

/-!
Shallow embedding of the `cw-vest` scheduled-payment contract
(`src/contract.rs`, with types from `src/state.rs` and `src/msg.rs`).

Conventions of the embedding:
* `Addr` is a string; `deps.api.addr_validate` is abstracted to the identity
  (bech32 well-formedness is outside the engine per the specification).
* `Uint128` amounts are modelled as `Nat`; the contract only copies amounts,
  it never does arithmetic on them.
* The id counter is a `u64` in the source (`state.rs`, `next_id`); CosmWasm
  contracts are built with integer-overflow checks enabled, so the increment
  aborts the transaction instead of wrapping at `2^64 - 1`.  We model ids as
  `Nat`; the theorems describe all executions in which no allocation aborts.
* Storage (`cw_storage_plus`) is modelled explicitly: `Item` slots become
  plain fields, and the `Map<U64Key, PaymentState>` becomes an association
  list sorted by key, which is exactly the ascending-key iteration order of
  `range(.., Order::Ascending)`.
* Each `execute_*` entry point returns the raw mutated storage together with
  `Except ContractError (List CosmosMsg)`; `stepStorage` applies the CosmWasm
  commit rule (an `Err` reverts every write of the call).
* `to_binary` of the cw20 message is kept structured rather than serialized.
-/

/-- Bech32 account address, abstracted to its string form. -/
abbrev Addr := String

/-- The relevant parts of `cosmwasm_std::BlockInfo`: current height and time. -/
structure BlockInfo where
  height : Nat
  time : Nat
deriving DecidableEq, Repr

/-- The relevant part of `cosmwasm_std::Env`: the current block. -/
structure Env where
  block : BlockInfo
deriving DecidableEq, Repr

/-- `cw0::Expiration`: a trigger that fires at a height, at a time, or never. -/
inductive Expiration where
  | at_height : Nat → Expiration
  | at_time : Nat → Expiration
  | never : Expiration
deriving DecidableEq, Repr

/-- `cw0::Expiration::is_expired`: height/time has been reached; `never`
is never expired. -/
def Expiration.is_expired (e : Expiration) (block : BlockInfo) : Bool :=
  match e with
  | .at_height h => block.height ≥ h
  | .at_time t => block.time ≥ t
  | .never => false

/-- `msg.rs`: one scheduled payment.  `denom` is always present as a string;
`token_address` is present exactly when the asset is a cw20 token. -/
structure Payment where
  recipient : Addr
  amount : Nat
  denom : String
  token_address : Option Addr
  time : Expiration
deriving DecidableEq, Repr

/-- `state.rs` (variant used by `contract.rs`): a stored payment with its
lifecycle flags and allocated id. -/
structure PaymentState where
  payment : Payment
  paid : Bool
  stopped : Bool
  id : Nat
deriving DecidableEq, Repr

/-- `state.rs` (variant used by `contract.rs`): the singleton configuration. -/
structure Config where
  owner : Addr
deriving DecidableEq, Repr

/-- `cosmwasm_std::Coin`. -/
structure Coin where
  denom : String
  amount : Nat
deriving DecidableEq, Repr

/-- The cw20 message built by `get_send_tokens_message`
(`Cw20ExecuteMsg::Transfer`), kept structured instead of binary-encoded. -/
inductive Cw20Msg where
  | Transfer : Addr → Nat → Cw20Msg
deriving DecidableEq, Repr

/-- The two `CosmosMsg` shapes the contract emits: `BankMsg::Send` and
`WasmMsg::Execute` carrying a cw20 transfer. -/
inductive CosmosMsg where
  | BankSend : Addr → List Coin → CosmosMsg
  | WasmExecute : Addr → Cw20Msg → List Coin → CosmosMsg
deriving DecidableEq, Repr

/-- The `ContractError` variants used by `contract.rs` (`error.rs` itself is
not part of the provided sources; the variant names are taken verbatim from
their uses in `contract.rs`). -/
inductive ContractError where
  | Unauthorized
  | PaymentNotFound
  | AlreadyPaid
  | PaymentStopped
deriving DecidableEq, Repr

/-- The contract storage: the `CONFIG` item, the `PAYMENT_COUNT` item
(`none` when never written) and the `PAYMENTS` map as an association list
sorted by key in ascending order. -/
structure Storage where
  config : Config
  payment_count : Option Nat
  payments : List (Nat × PaymentState)
deriving DecidableEq, Repr

/-- `PAYMENTS.may_load`: point lookup of the first entry with the given key. -/
def mapLoad (k : Nat) : List (Nat × PaymentState) → Option PaymentState
  | [] => none
  | (k', v) :: rest => if k = k' then some v else mapLoad k rest

/-- `PAYMENTS.save`: insert at the sorted position, replacing an existing
entry with the same key. -/
def mapInsert (k : Nat) (v : PaymentState) :
    List (Nat × PaymentState) → List (Nat × PaymentState)
  | [] => [(k, v)]
  | (k', v') :: rest =>
    if k < k' then (k, v) :: (k', v') :: rest
    else if k = k' then (k, v) :: rest
    else (k', v') :: mapInsert k v rest

/-- `PAYMENTS.update` with an always-`Ok` closure on the `Some` branch:
load the entry, apply `f`, save; `none` when the key is absent (the code's
`None => Err(PaymentNotFound)` branch). -/
def mapUpdate (k : Nat) (f : PaymentState → PaymentState) :
    List (Nat × PaymentState) → Option (List (Nat × PaymentState))
  | [] => none
  | (k', v) :: rest =>
    if k = k' then some ((k', f v) :: rest)
    else (mapUpdate k f rest).map (fun m => (k', v) :: m)

/-- `state.rs::next_id`: read `PAYMENT_COUNT` (default 0), add one, persist,
return the new id. -/
def next_id (s : Storage) : Nat × Storage :=
  let id := s.payment_count.getD 0 + 1
  (id, { s with payment_count := some id })

/-- The shared creation loop of `instantiate` and `execute_add_payments`:
for each schedule entry allocate an id and save a fresh unpaid, unstopped
`PaymentState`. -/
def addSchedule (schedule : List Payment) (s : Storage) : Storage :=
  schedule.foldl
    (fun s p =>
      let r := next_id s
      { r.2 with
        payments :=
          mapInsert r.1 { payment := p, paid := false, stopped := false, id := r.1 }
            r.2.payments })
    s

/-- `contract.rs::instantiate`: save the owner configuration, then store the
initial schedule.  Runs on empty storage (`PAYMENT_COUNT` unset, no
payments). -/
def instantiate (owner : Addr) (schedule : List Payment) : Storage :=
  addSchedule schedule { config := { owner := owner }, payment_count := none, payments := [] }

/-- `contract.rs::get_send_tokens_message`: destination is the payment's
recipient, or the currently stored owner on a refund; a `token_address`
yields a cw20 `WasmMsg::Execute`, otherwise a single-coin `BankMsg::Send`. -/
def get_send_tokens_message (s : Storage) (p : Payment) (refund : Bool) : CosmosMsg :=
  let recipient := if refund then s.config.owner else p.recipient
  match p.token_address with
  | some ta => .WasmExecute ta (.Transfer recipient p.amount) []
  | none => .BankSend recipient [{ denom := p.denom, amount := p.amount }]

/-- The filter of `execute_pay`:
`!p.stopped && !p.paid && p.payment.time.is_expired(&env.block)`. -/
def payable (env : Env) (p : PaymentState) : Bool :=
  !p.stopped && !p.paid && p.payment.time.is_expired env.block

/-- The `to_be_paid` list of `execute_pay`: all stored payments, in ascending
key order, filtered to the payable ones. -/
def selectedPayments (env : Env) (s : Storage) : List PaymentState :=
  (s.payments.map Prod.snd).filter (payable env)

/-- The `PAYMENTS.update` loop of `execute_pay`: mark each selected payment
paid, threading the raw storage; an absent key stops the loop with
`PaymentNotFound` (the writes made so far stay in the raw map). -/
def markPaidLoop (ps : List PaymentState) (m : List (Nat × PaymentState)) :
    Option ContractError × List (Nat × PaymentState) :=
  match ps with
  | [] => (none, m)
  | p :: rest =>
    match mapUpdate p.id (fun q => { q with paid := true }) m with
    | none => (some .PaymentNotFound, m)
    | some m2 => markPaidLoop rest m2

/-- `contract.rs::execute_pay` (Sweep): select the payable payments in
ascending id order, build one transfer message per selection (computed before
any update, reading the pre-update storage), then mark each selected payment
paid. -/
def execute_pay (env : Env) (s : Storage) :
    Except ContractError (List CosmosMsg) × Storage :=
  let to_be_paid := selectedPayments env s
  let payment_msgs := to_be_paid.map (fun p => get_send_tokens_message s p.payment false)
  match markPaidLoop to_be_paid s.payments with
  | (some e, m) => (.error e, { s with payments := m })
  | (none, m) => (.ok payment_msgs, { s with payments := m })

/-- `contract.rs::execute_stop_payment`: owner-only; the payment must exist,
be unpaid and unstopped; then `stopped` is set and a refund message for the
full payment is emitted to the current owner. -/
def execute_stop_payment (sender : Addr) (s : Storage) (id : Nat) :
    Except ContractError (List CosmosMsg) × Storage :=
  if sender ≠ s.config.owner then (.error .Unauthorized, s)
  else
    match mapLoad id s.payments with
    | none => (.error .PaymentNotFound, s)
    | some payment =>
      if payment.paid then (.error .AlreadyPaid, s)
      else if payment.stopped then (.error .PaymentStopped, s)
      else
        match mapUpdate id (fun p => { p with stopped := true }) s.payments with
        | none => (.error .PaymentNotFound, s)
        | some m2 =>
          let s2 := { s with payments := m2 }
          (.ok [get_send_tokens_message s2 payment.payment true], s2)

/-- `contract.rs::execute_update_config` (UpdateOwner): owner-only; replaces
the stored owner; emits no messages. -/
def execute_update_config (sender : Addr) (owner : Addr) (s : Storage) :
    Except ContractError (List CosmosMsg) × Storage :=
  if sender ≠ s.config.owner then (.error .Unauthorized, s)
  else (.ok [], { s with config := { owner := owner } })

/-- `contract.rs::execute_add_payments` (AddObligations): owner-only; stores
each schedule entry under a freshly allocated id; emits no messages. -/
def execute_add_payments (sender : Addr) (schedule : List Payment) (s : Storage) :
    Except ContractError (List CosmosMsg) × Storage :=
  if sender ≠ s.config.owner then (.error .Unauthorized, s)
  else (.ok [], addSchedule schedule s)

/-- `msg.rs::ExecuteMsg` (variant used by `contract.rs`). -/
inductive ExecuteMsg where
  | Pay : ExecuteMsg
  | UpdateConfig : Addr → ExecuteMsg
  | StopPayment : Nat → ExecuteMsg
  | AddPayments : List Payment → ExecuteMsg
deriving DecidableEq, Repr

/-- `contract.rs::execute`: dispatch on the message. -/
def execute (sender : Addr) (env : Env) (msg : ExecuteMsg) (s : Storage) :
    Except ContractError (List CosmosMsg) × Storage :=
  match msg with
  | .Pay => execute_pay env s
  | .UpdateConfig owner => execute_update_config sender owner s
  | .StopPayment id => execute_stop_payment sender s id
  | .AddPayments schedule => execute_add_payments sender schedule s

/-- One invocation of the contract: the authenticated sender, the block
environment, and the message. -/
structure Step where
  sender : Addr
  env : Env
  msg : ExecuteMsg
deriving DecidableEq, Repr

/-- The storage committed after a step: CosmWasm reverts every write of a
call that returns `Err`, so an error leaves the pre-call storage. -/
def stepStorage (st : Step) (s : Storage) : Storage :=
  match execute st.sender st.env st.msg s with
  | (.ok _, s2) => s2
  | (.error _, _) => s

/-- The storage committed after a sequence of invocations. -/
def execSeq (steps : List Step) (s : Storage) : Storage :=
  steps.foldl (fun s st => stepStorage st s) s

/-- Reachable contract states: instantiation followed by any invocations. -/
inductive Reachable : Storage → Prop where
  | init (owner : Addr) (schedule : List Payment) : Reachable (instantiate owner schedule)
  | step (st : Step) {s : Storage} : Reachable s → Reachable (stepStorage st s)

/-- `paid` flag of the payment stored at key `k` (`false` when absent). -/
def paidAt (k : Nat) (s : Storage) : Bool :=
  match mapLoad k s.payments with
  | some p => p.paid
  | none => false

/-- Ids selected by a Sweep at environment `env` in state `s`. -/
def paySelectedIds (env : Env) (s : Storage) : List Nat :=
  (selectedPayments env s).map PaymentState.id

/-- How many invocations of a trace are Sweeps that select obligation `k`. -/
def countPaySelections (k : Nat) : List Step → Storage → Nat
  | [], _ => 0
  | st :: rest, s =>
    (match st.msg with
      | .Pay => if k ∈ paySelectedIds st.env s then 1 else 0
      | _ => 0) + countPaySelections k rest (stepStorage st s)

/-- Destination of an emitted transfer instruction: the bank-send address,
or the recipient inside the cw20 transfer. -/
def msgRecipient : CosmosMsg → Addr
  | .BankSend dst _ => dst
  | .WasmExecute _ (.Transfer r _) _ => r

/-- Amount moved by an emitted transfer instruction. -/
def msgAmount : CosmosMsg → Nat
  | .BankSend _ coins => (coins.map Coin.amount).sum
  | .WasmExecute _ (.Transfer _ a) _ => a

/-- Whether an instruction is a native bank transfer. -/
def isBankMsg : CosmosMsg → Bool
  | .BankSend _ _ => true
  | .WasmExecute _ _ _ => false

/-- Whether an instruction is a contract call on a token. -/
def isWasmMsg : CosmosMsg → Bool
  | .BankSend _ _ => false
  | .WasmExecute _ _ _ => true

/-- Well-formedness of the store, maintained by every reachable state:
keys strictly ascending, each stored payment's `id` field equal to its key,
and every key at most the persisted counter. -/
def StoreWF (s : Storage) : Prop :=
  List.Chain' (fun a b => a < b) (s.payments.map Prod.fst) ∧
  (∀ kv ∈ s.payments, kv.2.id = kv.1) ∧
  (∀ kv ∈ s.payments, kv.1 ≤ s.payment_count.getD 0)

/-! ### Association-list map lemmas -/

theorem mapUpdate_eq_none {k : Nat} {f : PaymentState → PaymentState}
    {m : List (Nat × PaymentState)} :
    mapUpdate k f m = none ↔ mapLoad k m = none := by
  induction m with
  | nil => simp [mapUpdate, mapLoad]
  | cons kv rest ih =>
    obtain ⟨k', v⟩ := kv
    by_cases h : k = k' <;> simp [mapUpdate, mapLoad, h, ih]

theorem mapUpdate_exists {k : Nat} {f : PaymentState → PaymentState}
    {m : List (Nat × PaymentState)} {v : PaymentState}
    (h : mapLoad k m = some v) : ∃ m2, mapUpdate k f m = some m2 := by
  cases hu : mapUpdate k f m with
  | none => rw [mapUpdate_eq_none.mp hu] at h; exact absurd h (by simp)
  | some m2 => exact ⟨m2, rfl⟩

theorem mapLoad_mapUpdate {k : Nat} {f : PaymentState → PaymentState}
    {m m2 : List (Nat × PaymentState)} (h : mapUpdate k f m = some m2) :
    mapLoad k m2 = (mapLoad k m).map f ∧
      ∀ j, j ≠ k → mapLoad j m2 = mapLoad j m := by
  induction m generalizing m2 with
  | nil => simp [mapUpdate] at h
  | cons kv rest ih =>
    obtain ⟨k', v⟩ := kv
    by_cases hk : k = k'
    · simp [mapUpdate, hk] at h
      subst hk
      subst h
      constructor
      · simp [mapLoad]
      · intro j hj
        simp [mapLoad, hj]
    · simp [mapUpdate, hk] at h
      obtain ⟨m3, hm3, hcons⟩ := h
      subst hcons
      obtain ⟨h1, h2⟩ := ih hm3
      constructor
      · simpa [mapLoad, hk] using h1
      · intro j hj
        by_cases hj' : j = k'
        · simp [mapLoad, hj']
        · simp [mapLoad, hj', h2 j hj]

theorem mapUpdate_map_fst {k : Nat} {f : PaymentState → PaymentState}
    {m m2 : List (Nat × PaymentState)} (h : mapUpdate k f m = some m2) :
    m2.map Prod.fst = m.map Prod.fst := by
  induction m generalizing m2 with
  | nil => simp [mapUpdate] at h
  | cons kv rest ih =>
    obtain ⟨k', v⟩ := kv
    by_cases hk : k = k'
    · simp [mapUpdate, hk] at h
      subst h; simp
    · simp [mapUpdate, hk] at h
      obtain ⟨m3, hm3, hcons⟩ := h
      subst hcons
      simp [ih hm3]

theorem mapUpdate_mem {k : Nat} {f : PaymentState → PaymentState}
    {m m2 : List (Nat × PaymentState)} (h : mapUpdate k f m = some m2) :
    ∀ kv2 ∈ m2, ∃ kv ∈ m, kv2.1 = kv.1 ∧ (kv2.2 = kv.2 ∨ kv2.2 = f kv.2) := by
  induction m generalizing m2 with
  | nil => simp [mapUpdate] at h
  | cons kv rest ih =>
    obtain ⟨k', v⟩ := kv
    by_cases hk : k = k'
    · simp [mapUpdate, hk] at h
      subst h
      intro kv2 hkv2
      rcases List.mem_cons.mp hkv2 with h1 | h1
      · exact ⟨(k', v), by simp, by simp [h1], Or.inr (by simp [h1])⟩
      · exact ⟨kv2, by simp [h1], rfl, Or.inl rfl⟩
    · simp [mapUpdate, hk] at h
      obtain ⟨m3, hm3, hcons⟩ := h
      subst hcons
      intro kv2 hkv2
      rcases List.mem_cons.mp hkv2 with h1 | h1
      · exact ⟨(k', v), by simp, by simp [h1], Or.inl (by simp [h1])⟩
      · obtain ⟨kv, hkv, he1, he2⟩ := ih hm3 kv2 h1
        exact ⟨kv, by simp [hkv], he1, he2⟩

theorem mapInsert_append {k : Nat} {v : PaymentState}
    {m : List (Nat × PaymentState)} (h : ∀ j ∈ m.map Prod.fst, j < k) :
    mapInsert k v m = m ++ [(k, v)] := by
  induction m with
  | nil => simp [mapInsert]
  | cons kv rest ih =>
    obtain ⟨k', v'⟩ := kv
    have hk : k' < k := h k' (by simp)
    have h1 : ¬ k < k' := by omega
    have h2 : ¬ k = k' := by omega
    simp only [mapInsert, if_neg h1, if_neg h2, List.cons_append]
    congr 1
    exact ih (fun j hj => h j (by simp [hj]))

theorem mapLoad_append {k : Nat} {m m2 : List (Nat × PaymentState)} :
    mapLoad k (m ++ m2) =
      match mapLoad k m with
      | some v => some v
      | none => mapLoad k m2 := by
  induction m with
  | nil => simp [mapLoad]
  | cons kv rest ih =>
    obtain ⟨k', v⟩ := kv
    by_cases hk : k = k' <;> simp [mapLoad, hk, ih]

theorem mapLoad_mem {k : Nat} {v : PaymentState} {m : List (Nat × PaymentState)}
    (h : mapLoad k m = some v) : (k, v) ∈ m := by
  induction m with
  | nil => simp [mapLoad] at h
  | cons kv rest ih =>
    obtain ⟨k', v'⟩ := kv
    by_cases hk : k = k'
    · simp [mapLoad, hk] at h
      simp [hk, h]
    · simp [mapLoad, hk] at h
      simp [ih h]

theorem keys_nodup_of_chain {m : List (Nat × PaymentState)}
    (h : List.Chain' (fun a b => a < b) (m.map Prod.fst)) :
    (m.map Prod.fst).Nodup := by
  have hp : (m.map Prod.fst).Pairwise (fun a b => a < b) :=
    List.chain'_iff_pairwise.mp h
  exact hp.imp Nat.ne_of_lt

theorem mem_mapLoad {k : Nat} {v : PaymentState} {m : List (Nat × PaymentState)}
    (hnd : (m.map Prod.fst).Nodup) (h : (k, v) ∈ m) : mapLoad k m = some v := by
  induction m with
  | nil => simp at h
  | cons kv rest ih =>
    obtain ⟨k', v'⟩ := kv
    simp only [List.map_cons, List.nodup_cons] at hnd
    rcases List.mem_cons.mp h with h1 | h1
    · injection h1 with ha hb
      subst ha
      subst hb
      simp [mapLoad]
    · have hk : k ≠ k' := by
        intro he
        subst he
        exact hnd.1 (List.mem_map.mpr ⟨(k, v), h1, rfl⟩)
      simp [mapLoad, hk, ih hnd.2 h1]

/-! ### Sweep (`execute_pay`) characterization -/

theorem markPaidLoop_spec (ps : List PaymentState) (m : List (Nat × PaymentState))
    (hmem : ∀ p ∈ ps, (mapLoad p.id m).isSome)
    (hnd : (ps.map PaymentState.id).Nodup) :
    ∃ m2, markPaidLoop ps m = (none, m2) ∧
      m2.map Prod.fst = m.map Prod.fst ∧
      (∀ k, mapLoad k m2 =
        if k ∈ ps.map PaymentState.id then
          (mapLoad k m).map (fun q => { q with paid := true })
        else mapLoad k m) ∧
      (∀ kv2 ∈ m2, ∃ kv ∈ m, kv2.1 = kv.1 ∧
        (kv2.2 = kv.2 ∨ kv2.2 = { kv.2 with paid := true })) := by
  induction ps generalizing m with
  | nil =>
    refine ⟨m, rfl, rfl, ?_, ?_⟩
    · intro k; simp
    · intro kv2 h2; exact ⟨kv2, h2, rfl, Or.inl rfl⟩
  | cons p rest ih =>
    have hsome : (mapLoad p.id m).isSome := hmem p (by simp)
    obtain ⟨v, hv⟩ := Option.isSome_iff_exists.mp hsome
    obtain ⟨m1, hm1⟩ := mapUpdate_exists (f := fun q => { q with paid := true }) hv
    obtain ⟨hload1, hload2⟩ := mapLoad_mapUpdate hm1
    simp only [List.map_cons, List.nodup_cons] at hnd
    have hmem1 : ∀ q ∈ rest, (mapLoad q.id m1).isSome := by
      intro q hq
      by_cases hqi : q.id = p.id
      · rw [hqi, hload1, hv]; simp
      · rw [hload2 q.id hqi]; exact hmem q (by simp [hq])
    obtain ⟨m2, hrun, hkeys, hpt, hmm⟩ := ih m1 hmem1 hnd.2
    refine ⟨m2, ?_, ?_, ?_, ?_⟩
    · simp [markPaidLoop, hm1, hrun]
    · rw [hkeys, mapUpdate_map_fst hm1]
    · intro k
      by_cases hk : k = p.id
      · subst hk
        have hnr : p.id ∉ rest.map PaymentState.id := hnd.1
        rw [hpt p.id, if_neg hnr, hload1]
        simp [hv]
      · by_cases hkr : k ∈ rest.map PaymentState.id
        · rw [hpt k, if_pos hkr, hload2 k hk]
          simp [List.mem_cons, hkr]
        · rw [hpt k, if_neg hkr, hload2 k hk]
          simp [List.mem_cons, hk, hkr]
    · intro kv2 h2
      obtain ⟨kv1, hkv1, he1, he2⟩ := hmm kv2 h2
      obtain ⟨kv, hkv, hf1, hf2⟩ := mapUpdate_mem hm1 kv1 hkv1
      refine ⟨kv, hkv, he1.trans hf1, ?_⟩
      rcases he2 with h | h <;> rcases hf2 with h' | h' <;>
        simp [h, h']

theorem selected_mem_load {env : Env} {s : Storage} (h : StoreWF s) :
    ∀ p ∈ selectedPayments env s,
      mapLoad p.id s.payments = some p ∧ payable env p = true := by
  intro p hp
  obtain ⟨hchain, hid, _⟩ := h
  have hmem := List.mem_of_mem_filter hp
  have hpay := List.of_mem_filter hp
  obtain ⟨kv, hkv, hsnd⟩ := List.mem_map.mp hmem
  obtain ⟨k1, v1⟩ := kv
  simp only at hsnd
  subst hsnd
  have hk : v1.id = k1 := hid (k1, v1) hkv
  refine ⟨?_, hpay⟩
  rw [hk]
  exact mem_mapLoad (keys_nodup_of_chain hchain) hkv

theorem paySelectedIds_sublist {env : Env} {s : Storage} (h : StoreWF s) :
    (paySelectedIds env s).Sublist (s.payments.map Prod.fst) := by
  obtain ⟨_, hid, _⟩ := h
  have h1 : (paySelectedIds env s).Sublist ((s.payments.map Prod.snd).map PaymentState.id) :=
    ((s.payments.map Prod.snd).filter_sublist).map PaymentState.id
  have h2 : (s.payments.map Prod.snd).map PaymentState.id = s.payments.map Prod.fst := by
    rw [List.map_map]
    exact List.map_congr_left (fun kv hkv => hid kv hkv)
  rwa [h2] at h1

theorem paySelectedIds_sorted {env : Env} {s : Storage} (h : StoreWF s) :
    List.Chain' (fun a b => a < b) (paySelectedIds env s) ∧
      (paySelectedIds env s).Nodup := by
  have hp : (s.payments.map Prod.fst).Pairwise (fun a b => a < b) :=
    List.chain'_iff_pairwise.mp h.1
  have hps : (paySelectedIds env s).Pairwise (fun a b => a < b) :=
    hp.sublist (paySelectedIds_sublist h)
  exact ⟨List.chain'_iff_pairwise.mpr hps, hps.imp Nat.ne_of_lt⟩

theorem mem_paySelectedIds {env : Env} {s : Storage} {k : Nat} (h : StoreWF s) :
    k ∈ paySelectedIds env s ↔
      ∃ p, mapLoad k s.payments = some p ∧ payable env p = true := by
  constructor
  · intro hk
    obtain ⟨p, hp, hpk⟩ := List.mem_map.mp hk
    obtain ⟨hload, hpay⟩ := selected_mem_load h p hp
    exact ⟨p, by rwa [hpk] at hload, hpay⟩
  · rintro ⟨p, hload, hpay⟩
    have hmem := mapLoad_mem hload
    have hpk : p.id = k := h.2.1 (k, p) hmem
    have hval : p ∈ s.payments.map Prod.snd := List.mem_map.mpr ⟨(k, p), hmem, rfl⟩
    have hsel : p ∈ selectedPayments env s := List.mem_filter.mpr ⟨hval, hpay⟩
    exact hpk ▸ List.mem_map.mpr ⟨p, hsel, rfl⟩

theorem execute_pay_spec (env : Env) (s : Storage) (h : StoreWF s) :
    ∃ m2,
      execute_pay env s =
        (.ok ((selectedPayments env s).map
            (fun p => get_send_tokens_message s p.payment false)),
          { s with payments := m2 }) ∧
      m2.map Prod.fst = s.payments.map Prod.fst ∧
      (∀ k, mapLoad k m2 =
        if k ∈ paySelectedIds env s then
          (mapLoad k s.payments).map (fun q => { q with paid := true })
        else mapLoad k s.payments) ∧
      (∀ kv2 ∈ m2, ∃ kv ∈ s.payments, kv2.1 = kv.1 ∧
        (kv2.2 = kv.2 ∨ kv2.2 = { kv.2 with paid := true })) := by
  have hmem : ∀ p ∈ selectedPayments env s, (mapLoad p.id s.payments).isSome := by
    intro p hp
    rw [(selected_mem_load h p hp).1]
    simp
  have hnd : ((selectedPayments env s).map PaymentState.id).Nodup :=
    (paySelectedIds_sorted h).2
  obtain ⟨m2, hrun, hkeys, hpt, hmm⟩ :=
    markPaidLoop_spec (selectedPayments env s) s.payments hmem hnd
  refine ⟨m2, ?_, hkeys, hpt, hmm⟩
  simp [execute_pay, hrun]

/-! ### Creation (`addSchedule`) characterization and store invariant -/

theorem addSchedule_spec (schedule : List Payment) (s : Storage)
    (hkeys : ∀ j ∈ s.payments.map Prod.fst, j ≤ s.payment_count.getD 0) :
    (addSchedule schedule s).config = s.config ∧
    (addSchedule schedule s).payment_count.getD 0 =
      s.payment_count.getD 0 + schedule.length ∧
    (addSchedule schedule s).payments.map Prod.fst =
      s.payments.map Prod.fst ++
        List.range' (s.payment_count.getD 0 + 1) schedule.length ∧
    (∀ k, k ≤ s.payment_count.getD 0 →
      mapLoad k (addSchedule schedule s).payments = mapLoad k s.payments) ∧
    (∀ kv ∈ (addSchedule schedule s).payments, kv ∈ s.payments ∨
      (kv.2.id = kv.1 ∧ kv.2.paid = false ∧ kv.2.stopped = false ∧
        s.payment_count.getD 0 < kv.1)) := by
  induction schedule generalizing s with
  | nil =>
    refine ⟨rfl, by simp [addSchedule], by simp [addSchedule], ?_, ?_⟩
    · intro k _; rfl
    · intro kv hkv; exact Or.inl hkv
  | cons p rest ih =>
    set c := s.payment_count.getD 0 with hc
    have hlt : ∀ j ∈ s.payments.map Prod.fst, j < c + 1 := by
      intro j hj; exact Nat.lt_succ_of_le (hkeys j hj)
    set fresh : PaymentState :=
      { payment := p, paid := false, stopped := false, id := c + 1 } with hfresh
    set s1 : Storage :=
      { config := s.config, payment_count := some (c + 1),
        payments := s.payments ++ [(c + 1, fresh)] } with hs1
    have hstep : addSchedule (p :: rest) s = addSchedule rest s1 := by
      simp only [addSchedule, List.foldl_cons]
      congr 1
      simp only [next_id, hs1, hfresh]
      congr 1
      exact mapInsert_append hlt
    have hkeys1 : ∀ j ∈ s1.payments.map Prod.fst, j ≤ s1.payment_count.getD 0 := by
      intro j hj
      have hgd : s1.payment_count.getD 0 = c + 1 := by simp [hs1]
      rw [hgd]
      simp only [hs1, List.map_append, List.mem_append] at hj
      rcases hj with hj | hj
      · exact Nat.le_succ_of_le (hkeys j hj)
      · simp at hj; omega
    obtain ⟨ih1, ih2, ih3, ih4, ih5⟩ := ih s1 hkeys1
    rw [hstep]
    have hc1 : s1.payment_count.getD 0 = c + 1 := by simp [hs1]
    refine ⟨ih1.trans (by simp [hs1]), ?_, ?_, ?_, ?_⟩
    · rw [ih2, hc1]; simp only [List.length_cons]; omega
    · have h1 : s1.payments.map Prod.fst = s.payments.map Prod.fst ++ [c + 1] := by
        simp [hs1]
      rw [ih3, hc1, h1, List.append_assoc, List.length_cons, List.range'_succ]
      simp
    · intro k hk
      rw [ih4 k (by rw [hc1]; omega)]
      rw [hs1]
      simp only [mapLoad_append]
      cases hl : mapLoad k s.payments with
      | some v => rfl
      | none =>
        have : k ≠ c + 1 := by omega
        simp [mapLoad, this]
    · intro kv hkv
      rcases ih5 kv hkv with h1 | h1
      · simp only [hs1, List.mem_append] at h1
        rcases h1 with h1 | h1
        · exact Or.inl h1
        · simp at h1
          refine Or.inr ⟨?_, ?_, ?_, ?_⟩ <;> simp [h1, hfresh]
      · rw [hc1] at h1
        exact Or.inr ⟨h1.1, h1.2.1, h1.2.2.1, by omega⟩

theorem StoreWF.keys_le {s : Storage} (h : StoreWF s) :
    ∀ j ∈ s.payments.map Prod.fst, j ≤ s.payment_count.getD 0 := by
  intro j hj
  obtain ⟨kv, hkv, hfst⟩ := List.mem_map.mp hj
  exact hfst ▸ h.2.2 kv hkv

theorem addSchedule_WF {schedule : List Payment} {s : Storage} (h : StoreWF s) :
    StoreWF (addSchedule schedule s) := by
  have hkeys := h.keys_le
  obtain ⟨_, h2, h3, _, h5⟩ := addSchedule_spec schedule s hkeys
  refine ⟨?_, ?_, ?_⟩
  · rw [h3, List.chain'_iff_pairwise, List.pairwise_append]
    refine ⟨List.chain'_iff_pairwise.mp h.1, List.pairwise_lt_range' _ _, ?_⟩
    intro a ha b hb
    have hb' := (List.mem_range'_1.mp hb).1
    have := hkeys a ha
    omega
  · intro kv hkv
    rcases h5 kv hkv with h1 | h1
    · exact h.2.1 kv h1
    · exact h1.1
  · intro kv hkv
    rw [h2]
    have hk : kv.1 ∈ (addSchedule schedule s).payments.map Prod.fst :=
      List.mem_map.mpr ⟨kv, hkv, rfl⟩
    rw [h3] at hk
    rcases List.mem_append.mp hk with h1 | h1
    · exact le_trans (hkeys kv.1 h1) (Nat.le_add_right _ _)
    · have := List.mem_range'_1.mp h1
      omega

theorem mapUpdate_WF {s : Storage} (h : StoreWF s) {k : Nat}
    {f : PaymentState → PaymentState} {m2 : List (Nat × PaymentState)}
    (hu : mapUpdate k f s.payments = some m2) (hf : ∀ q, (f q).id = q.id) :
    StoreWF { s with payments := m2 } := by
  have hkeys := mapUpdate_map_fst hu
  refine ⟨?_, ?_, ?_⟩
  · show List.Chain' _ (m2.map Prod.fst)
    rw [hkeys]; exact h.1
  · intro kv2 hkv2
    obtain ⟨kv, hkv, he1, he2⟩ := mapUpdate_mem hu kv2 hkv2
    rcases he2 with he | he
    · rw [he1, he]; exact h.2.1 kv hkv
    · rw [he1, he, hf]; exact h.2.1 kv hkv
  · intro kv2 hkv2
    obtain ⟨kv, hkv, he1, _⟩ := mapUpdate_mem hu kv2 hkv2
    rw [he1]
    exact h.2.2 kv hkv

theorem execute_pay_WF {env : Env} {s : Storage} (h : StoreWF s) :
    StoreWF (execute_pay env s).2 := by
  obtain ⟨m2, hrun, hkeys, _, hmm⟩ := execute_pay_spec env s h
  rw [hrun]
  refine ⟨?_, ?_, ?_⟩
  · show List.Chain' _ (m2.map Prod.fst)
    rw [hkeys]; exact h.1
  · intro kv2 hkv2
    obtain ⟨kv, hkv, he1, he2⟩ := hmm kv2 hkv2
    rcases he2 with he | he
    · rw [he1, he]; exact h.2.1 kv hkv
    · rw [he1, he]; exact h.2.1 kv hkv
  · intro kv2 hkv2
    obtain ⟨kv, hkv, he1, _⟩ := hmm kv2 hkv2
    rw [he1]
    exact h.2.2 kv hkv

theorem stepStorage_WF {s : Storage} (h : StoreWF s) (st : Step) :
    StoreWF (stepStorage st s) := by
  unfold stepStorage execute
  cases hm : st.msg with
  | Pay =>
    cases hr : execute_pay st.env s with
    | mk r s2 =>
      cases r with
      | ok msgs =>
        have := @execute_pay_WF st.env s h
        rw [hr] at this
        simpa using this
      | error e => simpa using h
  | UpdateConfig owner =>
    by_cases hs : st.sender ≠ s.config.owner
    · simp [execute_update_config, hs, h]
    · simp only [execute_update_config, if_neg hs]
      exact ⟨h.1, h.2.1, h.2.2⟩
  | StopPayment id =>
    by_cases hs : st.sender ≠ s.config.owner
    · simp [execute_stop_payment, hs, h]
    · simp only [execute_stop_payment, if_neg hs]
      cases hl : mapLoad id s.payments with
      | none => simpa using h
      | some payment =>
        by_cases hp : payment.paid
        · simp [hp, h]
        · by_cases hst : payment.stopped
          · simp [hp, hst, h]
          · simp only [hp, hst, if_neg, Bool.false_eq_true, if_false]
            cases hu : mapUpdate id (fun p => { p with stopped := true }) s.payments with
            | none => simpa using h
            | some m2 =>
              have := mapUpdate_WF h hu (fun q => rfl)
              simpa using this
  | AddPayments schedule =>
    by_cases hs : st.sender ≠ s.config.owner
    · simp [execute_add_payments, hs, h]
    · simp only [execute_add_payments, if_neg hs]
      simpa using @addSchedule_WF schedule s h

theorem reachable_WF {s : Storage} (h : Reachable s) : StoreWF s := by
  induction h with
  | init owner schedule =>
    refine addSchedule_WF ⟨?_, ?_, ?_⟩ <;> simp
  | step st hr ih => exact stepStorage_WF ih st

/-! ### One-way latches and at-most-once selection -/

theorem stepStorage_mapLoad {s : Storage} (h : StoreWF s) (st : Step) (k : Nat)
    {p : PaymentState} (hp : mapLoad k s.payments = some p) :
    mapLoad k (stepStorage st s).payments = some p ∨
    mapLoad k (stepStorage st s).payments = some { p with paid := true } ∨
    mapLoad k (stepStorage st s).payments = some { p with stopped := true } := by
  unfold stepStorage execute
  cases hm : st.msg with
  | Pay =>
    obtain ⟨m2, hrun, _, hpt, _⟩ := execute_pay_spec st.env s h
    rw [hrun]
    simp only
    rw [hpt k]
    by_cases hk : k ∈ paySelectedIds st.env s
    · rw [if_pos hk, hp]
      exact Or.inr (Or.inl rfl)
    · rw [if_neg hk, hp]
      exact Or.inl rfl
  | UpdateConfig owner =>
    by_cases hs : st.sender ≠ s.config.owner
    · simp [execute_update_config, hs, hp]
    · simp [execute_update_config, if_neg hs, hp]
  | StopPayment pid =>
    by_cases hs : st.sender ≠ s.config.owner
    · simp [execute_stop_payment, hs, hp]
    · simp only [execute_stop_payment, if_neg hs]
      cases hl : mapLoad pid s.payments with
      | none => simpa using Or.inl hp
      | some payment =>
        by_cases hpd : payment.paid
        · simpa [hpd] using Or.inl hp
        · by_cases hst : payment.stopped
          · simpa [hpd, hst] using Or.inl hp
          · simp only [hpd, hst, Bool.false_eq_true, if_false]
            cases hu : mapUpdate pid (fun p => { p with stopped := true }) s.payments with
            | none => simpa using Or.inl hp
            | some m2 =>
              obtain ⟨hload1, hload2⟩ := mapLoad_mapUpdate hu
              by_cases hk : k = pid
              · subst hk
                rw [hp] at hl
                injection hl with hl
                subst hl
                simp only
                rw [hload1, hp]
                exact Or.inr (Or.inr rfl)
              · simp only
                rw [hload2 k hk]
                exact Or.inl hp
  | AddPayments schedule =>
    by_cases hs : st.sender ≠ s.config.owner
    · simp [execute_add_payments, hs, hp]
    · simp only [execute_add_payments, if_neg hs]
      have hkc : k ≤ s.payment_count.getD 0 := h.2.2 (k, p) (mapLoad_mem hp)
      obtain ⟨_, _, _, h4, _⟩ := addSchedule_spec schedule s h.keys_le
      refine Or.inl ?_
      show mapLoad k (addSchedule schedule s).payments = some p
      rw [h4 k hkc]
      exact hp

theorem paidAt_mono_step {s : Storage} (h : StoreWF s) (st : Step) {k : Nat}
    (hp : paidAt k s = true) : paidAt k (stepStorage st s) = true := by
  cases hl : mapLoad k s.payments with
  | none => simp [paidAt, hl] at hp
  | some p =>
    have hpp : p.paid = true := by simpa [paidAt, hl] using hp
    rcases stepStorage_mapLoad h st k hl with h1 | h1 | h1 <;> simp [paidAt, h1, hpp]

theorem paidAt_mono_seq {s : Storage} (h : StoreWF s) (steps : List Step) {k : Nat}
    (hp : paidAt k s = true) : paidAt k (execSeq steps s) = true := by
  induction steps generalizing s with
  | nil => exact hp
  | cons st rest ih =>
    exact ih (stepStorage_WF h st) (paidAt_mono_step h st hp)

theorem paid_not_selected {s : Storage} (h : StoreWF s) {k : Nat} {env : Env}
    (hp : paidAt k s = true) : k ∉ paySelectedIds env s := by
  intro hk
  obtain ⟨p, hload, hpay⟩ := (mem_paySelectedIds h).mp hk
  have hpp : p.paid = true := by simpa [paidAt, hload] using hp
  simp [payable, hpp] at hpay

theorem selected_paid_after_pay {s : Storage} (h : StoreWF s) {k : Nat}
    (sender : Addr) (env : Env) (hk : k ∈ paySelectedIds env s) :
    paidAt k (stepStorage { sender := sender, env := env, msg := .Pay } s) = true := by
  obtain ⟨p, hload, _⟩ := (mem_paySelectedIds h).mp hk
  obtain ⟨m2, hrun, _, hpt, _⟩ := execute_pay_spec env s h
  unfold paidAt stepStorage execute
  simp only
  rw [hrun]
  simp only
  rw [hpt k, if_pos hk, hload]
  simp

theorem countPaySelections_zero {s : Storage} (h : StoreWF s) {k : Nat}
    (hp : paidAt k s = true) (steps : List Step) :
    countPaySelections k steps s = 0 := by
  induction steps generalizing s with
  | nil => rfl
  | cons st rest ih =>
    have hrest := ih (stepStorage_WF h st) (paidAt_mono_step h st hp)
    unfold countPaySelections
    rw [hrest]
    cases hm : st.msg with
    | Pay => simp [paid_not_selected h hp]
    | UpdateConfig owner => simp
    | StopPayment pid => simp
    | AddPayments schedule => simp

theorem countPaySelections_le_one {s : Storage} (h : StoreWF s) (k : Nat)
    (steps : List Step) : countPaySelections k steps s ≤ 1 := by
  induction steps generalizing s with
  | nil => simp [countPaySelections]
  | cons st rest ih =>
    unfold countPaySelections
    cases hm : st.msg with
    | Pay =>
      by_cases hk : k ∈ paySelectedIds st.env s
      · rw [if_pos hk]
        have hpaid : paidAt k (stepStorage st s) = true := by
          have := selected_paid_after_pay h st.sender st.env hk
          have hst : st = { sender := st.sender, env := st.env, msg := .Pay } := by
            cases st with
            | mk a b c => simp at hm; simp [hm]
          rwa [← hst] at this
        rw [countPaySelections_zero (stepStorage_WF h st) hpaid rest]
      · rw [if_neg hk]
        simpa using ih (stepStorage_WF h st)
    | UpdateConfig owner => simpa using ih (stepStorage_WF h st)
    | StopPayment pid => simpa using ih (stepStorage_WF h st)
    | AddPayments schedule => simpa using ih (stepStorage_WF h st)

/-! ### StopPayment characterization -/

theorem load_payable_selected {s : Storage} {k : Nat}
    {p : PaymentState} {env : Env} (hload : mapLoad k s.payments = some p)
    (hpay : payable env p = true) : p ∈ selectedPayments env s := by
  have hmem := mapLoad_mem hload
  exact List.mem_filter.mpr ⟨List.mem_map.mpr ⟨(k, p), hmem, rfl⟩, hpay⟩

theorem execute_stop_spec (s : Storage) (id : Nat) (p : PaymentState)
    (hload : mapLoad id s.payments = some p)
    (hpaid : p.paid = false) (hstop : p.stopped = false) :
    ∃ m2,
      mapUpdate id (fun q => { q with stopped := true }) s.payments = some m2 ∧
      execute_stop_payment s.config.owner s id =
        (.ok [get_send_tokens_message { s with payments := m2 } p.payment true],
          { s with payments := m2 }) ∧
      mapLoad id m2 = some { p with stopped := true } ∧
      (∀ j, j ≠ id → mapLoad j m2 = mapLoad j s.payments) ∧
      msgRecipient (get_send_tokens_message { s with payments := m2 } p.payment true) =
        s.config.owner ∧
      msgAmount (get_send_tokens_message { s with payments := m2 } p.payment true) =
        p.payment.amount := by
  obtain ⟨m2, hu⟩ :=
    mapUpdate_exists (f := fun q => { q with stopped := true }) hload
  obtain ⟨hl1, hl2⟩ := mapLoad_mapUpdate hu
  refine ⟨m2, hu, ?_, ?_, hl2, ?_, ?_⟩
  · simp [execute_stop_payment, hload, hpaid, hstop, hu]
  · rw [hl1, hload]; rfl
  · cases hta : p.payment.token_address <;>
      simp [get_send_tokens_message, hta, msgRecipient]
  · cases hta : p.payment.token_address <;>
      simp [get_send_tokens_message, hta, msgAmount]

/-! ### Creation sequences and id allocation -/

/-- Initialize followed by any number of owner AddPayments batches. -/
def creationSeq (owner : Addr) (first : List Payment) (rest : List (List Payment)) :
    Storage :=
  rest.foldl (fun s sch => (execute_add_payments s.config.owner sch s).2)
    (instantiate owner first)

theorem add_payments_by_owner (s : Storage) (sch : List Payment) :
    execute_add_payments s.config.owner sch s = (.ok [], addSchedule sch s) := by
  simp [execute_add_payments]

/-- The id-allocation invariant: the counter equals the number of creations
so far and the stored keys are exactly 1..c in order. -/
def CountKeys (s : Storage) (c : Nat) : Prop :=
  s.payment_count.getD 0 = c ∧ s.payments.map Prod.fst = List.range' 1 c

theorem addSchedule_CountKeys {s : Storage} {c : Nat} (h : CountKeys s c)
    (sch : List Payment) : CountKeys (addSchedule sch s) (c + sch.length) := by
  have hkeys : ∀ j ∈ s.payments.map Prod.fst, j ≤ s.payment_count.getD 0 := by
    intro j hj
    rw [h.2] at hj
    have := List.mem_range'_1.mp hj
    rw [h.1]; omega
  obtain ⟨_, h2, h3, _, _⟩ := addSchedule_spec sch s hkeys
  refine ⟨by rw [h2, h.1], ?_⟩
  rw [h3, h.2, h.1]
  have ha := List.range'_append_1 1 c sch.length
  rw [Nat.add_comm 1 c] at ha
  rw [ha, Nat.add_comm sch.length c]

theorem creationSeq_CountKeys (owner : Addr) (first : List Payment)
    (rest : List (List Payment)) :
    CountKeys (creationSeq owner first rest)
      (first.length + (rest.map List.length).sum) := by
  have hbase : CountKeys (instantiate owner first) first.length := by
    have h0 : CountKeys
        { config := { owner := owner }, payment_count := none, payments := [] } 0 := by
      constructor <;> rfl
    simpa using addSchedule_CountKeys h0 first
  suffices hgen : ∀ (rest : List (List Payment)) (s : Storage) (c : Nat),
      CountKeys s c →
      CountKeys (rest.foldl (fun s sch => (execute_add_payments s.config.owner sch s).2) s)
        (c + (rest.map List.length).sum) by
    simpa [creationSeq] using hgen rest (instantiate owner first) first.length hbase
  intro rest
  induction rest with
  | nil => intro s c h; simpa using h
  | cons sch rest2 ih =>
    intro s c h
    simp only [List.foldl_cons, add_payments_by_owner]
    have hrec := ih (addSchedule sch s) (c + sch.length) (addSchedule_CountKeys h sch)
    simp only [add_payments_by_owner] at hrec
    simp only [List.map_cons, List.sum_cons]
    rw [← Nat.add_assoc]
    exact hrec

/-! ### Concrete example data for witnesses -/

def ownerAddr : Addr := "owner1"
def newOwnerAddr : Addr := "owner2"
def bobAddr : Addr := "bob"
def tokenAddr : Addr := "ctoken"
def junoDenom : String := "ujuno"
def otherDenom : String := "uother"

/-- A native-denomination payment triggered at height 10. -/
def natPayment : Payment :=
  { recipient := bobAddr, amount := 5, denom := junoDenom, token_address := none,
    time := .at_height 10 }

/-- A cw20-token payment triggered at height 20. -/
def tokPayment : Payment :=
  { recipient := bobAddr, amount := 7, denom := junoDenom,
    token_address := some tokenAddr, time := .at_height 20 }

/-- An instantiated contract holding both example payments (ids 1 and 2). -/
def exState : Storage := instantiate ownerAddr [natPayment, tokPayment]

def envAt (h : Nat) : Env := { block := { height := h, time := 0 } }

/-- A Sweep invocation at height 10 (anyone may call it). -/
def payStep : Step := { sender := bobAddr, env := envAt 10, msg := .Pay }

/-- The contract state after the height-10 Sweep: payment 1 is paid. -/
def sPaid : Storage := stepStorage payStep exState

/-- The contract state after the owner stops payment 2. -/
def sStopped : Storage := (execute_stop_payment ownerAddr exState 2).2

/-- Payment 1 as stored after the height-10 Sweep. -/
def paidP1 : PaymentState :=
  { payment := natPayment, paid := true, stopped := false, id := 1 }

/-- An owner invocation stopping payment 2. -/
def stopStep2 : Step := { sender := ownerAddr, env := envAt 0, msg := .StopPayment 2 }

/-! ### The claims -/

/-- C1: in any reachable state, once Sweep has marked an obligation paid it is
never selected again: over any further invocation sequence the number of
Sweeps selecting a given obligation is at most one, and zero if it is
already paid — so at most one transfer instruction is ever produced for it. -/
theorem claim_C1_sweep_at_most_once (s : Storage) (h : Reachable s) (k : Nat)
    (steps : List Step) :
    countPaySelections k steps s ≤ 1 ∧
      (paidAt k s = true → countPaySelections k steps s = 0) :=
  ⟨countPaySelections_le_one (reachable_WF h) k steps,
    fun hp => countPaySelections_zero (reachable_WF h) hp steps⟩

/-- Witness for C1 at a concrete reachable state and trace. -/
theorem claim_C1_sweep_at_most_once_witness :
    countPaySelections 1 [payStep, payStep] exState ≤ 1 ∧
      countPaySelections 1 [payStep] sPaid = 0 :=
  ⟨(claim_C1_sweep_at_most_once exState
      (Reachable.init ownerAddr [natPayment, tokPayment]) 1 [payStep, payStep]).1,
    (claim_C1_sweep_at_most_once sPaid
      (Reachable.step payStep (Reachable.init ownerAddr [natPayment, tokPayment]))
      1 [payStep]).2 (by decide)⟩

/-- C2: Sweep selects exactly the payable obligations, in ascending id order,
returns exactly one transfer instruction per selection (built by
`get_send_tokens_message` from the obligation's recipient/asset/amount),
marks exactly the selected obligations paid, and emits nothing when the
selection is empty. -/
theorem claim_C2_sweep_functional (env : Env) (s : Storage) (h : Reachable s) :
    ∃ m2,
      execute_pay env s =
        (.ok ((selectedPayments env s).map
            (fun p => get_send_tokens_message s p.payment false)),
          { s with payments := m2 }) ∧
      (∀ p : PaymentState,
        p ∈ selectedPayments env s ↔
          mapLoad p.id s.payments = some p ∧ payable env p = true) ∧
      List.Chain' (fun a b => a < b) (paySelectedIds env s) ∧
      (∀ k ∈ paySelectedIds env s,
        mapLoad k m2 = (mapLoad k s.payments).map (fun q => { q with paid := true })) ∧
      (∀ k ∉ paySelectedIds env s, mapLoad k m2 = mapLoad k s.payments) ∧
      (selectedPayments env s = [] → (execute_pay env s).1 = .ok []) := by
  have hwf := reachable_WF h
  obtain ⟨m2, h1, hkeys, hpt, hmm⟩ := execute_pay_spec env s hwf
  refine ⟨m2, h1, ?_, (paySelectedIds_sorted hwf).1, ?_, ?_, ?_⟩
  · intro p
    constructor
    · intro hp; exact selected_mem_load hwf p hp
    · rintro ⟨hl, hpay⟩; exact load_payable_selected hl hpay
  · intro k hk; rw [hpt k, if_pos hk]
  · intro k hk; rw [hpt k, if_neg hk]
  · intro hempty
    rw [h1, hempty]
    rfl

/-- Witness for C2: the height-10 Sweep on the example state emits exactly
the single native transfer of payment 1. -/
theorem claim_C2_sweep_functional_witness :
    (execute_pay (envAt 10) exState).1 =
      .ok [CosmosMsg.BankSend bobAddr [{ denom := junoDenom, amount := 5 }]] := by
  obtain ⟨m2, h1, -, -, -, -, -⟩ :=
    claim_C2_sweep_functional (envAt 10) exState
      (Reachable.init ownerAddr [natPayment, tokPayment])
  rw [h1]
  rfl

/-- C3: for an existing, unpaid, unstopped obligation, StopPayment by the
owner sets and persists `stopped = true`, leaves every other obligation
alone, and emits exactly one transfer instruction refunding the full amount
and asset to the owner (not to the obligation's recipient). -/
theorem claim_C3_stop_refund (s : Storage) (id : Nat) (p : PaymentState)
    (hload : mapLoad id s.payments = some p)
    (hpaid : p.paid = false) (hstop : p.stopped = false) :
    ∃ s2,
      execute_stop_payment s.config.owner s id =
        (.ok [get_send_tokens_message s2 p.payment true], s2) ∧
      s2.config = s.config ∧
      mapLoad id s2.payments = some { p with stopped := true } ∧
      (∀ j, j ≠ id → mapLoad j s2.payments = mapLoad j s.payments) ∧
      msgRecipient (get_send_tokens_message s2 p.payment true) = s.config.owner ∧
      msgAmount (get_send_tokens_message s2 p.payment true) = p.payment.amount ∧
      (s.config.owner ≠ p.payment.recipient →
        msgRecipient (get_send_tokens_message s2 p.payment true) ≠
          p.payment.recipient) := by
  obtain ⟨m2, hu, hexec, hl1, hl2, hr, ha⟩ := execute_stop_spec s id p hload hpaid hstop
  refine ⟨{ s with payments := m2 }, hexec, rfl, hl1, hl2, hr, ha, ?_⟩
  intro hne
  rw [hr]
  exact hne

/-- Witness for C3: stopping the pending native payment 1 refunds its
5 `ujuno` to the owner, not to the recipient. -/
theorem claim_C3_stop_refund_witness :
    (execute_stop_payment exState.config.owner exState 1).1 =
      .ok [CosmosMsg.BankSend exState.config.owner
        [{ denom := junoDenom, amount := 5 }]] ∧
    exState.config.owner ≠ natPayment.recipient := by
  obtain ⟨s2, hexec, hconf, -, -, -, -, -⟩ :=
    claim_C3_stop_refund exState 1
      { payment := natPayment, paid := false, stopped := false, id := 1 }
      (by decide) rfl rfl
  constructor
  · rw [hexec]
    have hmsg : get_send_tokens_message s2 natPayment true =
        CosmosMsg.BankSend exState.config.owner [{ denom := junoDenom, amount := 5 }] := by
      simp [get_send_tokens_message, natPayment, hconf]
    simp only
    rw [hmsg]
  · decide

/-- C4: every owner-only operation invoked by a non-owner fails with
`Unauthorized`; StopPayment by the owner fails with `PaymentNotFound` on a
missing id, `AlreadyPaid` on a paid obligation and `PaymentStopped` on a
stopped one; every failing call returns the untouched storage and carries no
transfer instructions. -/
theorem claim_C4_errors :
    (∀ (sender : Addr) (s : Storage) (schedule : List Payment),
      sender ≠ s.config.owner →
        execute_add_payments sender schedule s = (.error .Unauthorized, s)) ∧
    (∀ (sender : Addr) (s : Storage) (owner : Addr),
      sender ≠ s.config.owner →
        execute_update_config sender owner s = (.error .Unauthorized, s)) ∧
    (∀ (sender : Addr) (s : Storage) (id : Nat),
      sender ≠ s.config.owner →
        execute_stop_payment sender s id = (.error .Unauthorized, s)) ∧
    (∀ (s : Storage) (id : Nat),
      mapLoad id s.payments = none →
        execute_stop_payment s.config.owner s id = (.error .PaymentNotFound, s)) ∧
    (∀ (s : Storage) (id : Nat) (p : PaymentState),
      mapLoad id s.payments = some p → p.paid = true →
        execute_stop_payment s.config.owner s id = (.error .AlreadyPaid, s)) ∧
    (∀ (s : Storage) (id : Nat) (p : PaymentState),
      mapLoad id s.payments = some p → p.paid = false → p.stopped = true →
        execute_stop_payment s.config.owner s id = (.error .PaymentStopped, s)) := by
  refine ⟨?_, ?_, ?_, ?_, ?_, ?_⟩
  · intro sender s schedule hs
    simp [execute_add_payments, hs]
  · intro sender s owner hs
    simp [execute_update_config, hs]
  · intro sender s id hs
    simp [execute_stop_payment, hs]
  · intro s id hl
    simp [execute_stop_payment, hl]
  · intro s id p hl hp
    simp [execute_stop_payment, hl, hp]
  · intro s id p hl hp hst
    simp [execute_stop_payment, hl, hp, hst]

/-- Witness for C4: each rejection at a concrete input. -/
theorem claim_C4_errors_witness :
    execute_add_payments bobAddr [] exState = (.error .Unauthorized, exState) ∧
    execute_update_config bobAddr bobAddr exState = (.error .Unauthorized, exState) ∧
    execute_stop_payment bobAddr exState 1 = (.error .Unauthorized, exState) ∧
    execute_stop_payment exState.config.owner exState 5 =
      (.error .PaymentNotFound, exState) ∧
    execute_stop_payment sPaid.config.owner sPaid 1 = (.error .AlreadyPaid, sPaid) ∧
    execute_stop_payment sStopped.config.owner sStopped 2 =
      (.error .PaymentStopped, sStopped) := by
  obtain ⟨h1, h2, h3, h4, h5, h6⟩ := claim_C4_errors
  exact ⟨h1 bobAddr exState [] (by decide),
    h2 bobAddr exState bobAddr (by decide),
    h3 bobAddr exState 1 (by decide),
    h4 exState 5 (by decide),
    h5 sPaid 1 { payment := natPayment, paid := true, stopped := false, id := 1 }
      (by decide) rfl,
    h6 sStopped 2 { payment := tokPayment, paid := false, stopped := true, id := 2 }
      (by decide) rfl rfl⟩

/-- C5: over any creation sequence (Initialize then any number of owner
AddPayments batches) the stored keys are exactly 1..n in ascending order —
one fresh id per created obligation, strictly increasing, unique, never
reset, never reused — and the persisted counter equals the number of
creations; `next_id` always returns the incremented counter and persists
it. -/
theorem claim_C5_id_monotonic (owner : Addr) (first : List Payment)
    (rest : List (List Payment)) :
    (creationSeq owner first rest).payments.map Prod.fst =
      List.range' 1 (first.length + (rest.map List.length).sum) ∧
    (creationSeq owner first rest).payment_count.getD 0 =
      first.length + (rest.map List.length).sum ∧
    List.Chain' (fun a b => a < b)
      ((creationSeq owner first rest).payments.map Prod.fst) ∧
    ((creationSeq owner first rest).payments.map Prod.fst).Nodup ∧
    (∀ s : Storage, (next_id s).1 = s.payment_count.getD 0 + 1 ∧
      (next_id s).2.payment_count = some (next_id s).1) := by
  obtain ⟨hc, hk⟩ := creationSeq_CountKeys owner first rest
  have hch : List.Chain' (fun a b => a < b)
      ((creationSeq owner first rest).payments.map Prod.fst) := by
    rw [hk]
    exact List.chain'_iff_pairwise.mpr (List.pairwise_lt_range' _ _)
  exact ⟨hk, hc, hch, keys_nodup_of_chain hch, fun s => ⟨rfl, rfl⟩⟩

/-- C6: a token obligation always yields exactly one contract call on the
token's contract invoking its cw20 transfer with the destination and amount;
a native obligation always yields exactly one single-coin bank transfer. -/
theorem claim_C6_instruction_kinds (s : Storage) (p q : Payment) (t : Addr)
    (refund : Bool) (hp : p.token_address = some t) (hq : q.token_address = none) :
    get_send_tokens_message s p refund =
      .WasmExecute t
        (.Transfer (if refund then s.config.owner else p.recipient) p.amount) [] ∧
    get_send_tokens_message s q refund =
      .BankSend (if refund then s.config.owner else q.recipient)
        [{ denom := q.denom, amount := q.amount }] := by
  constructor <;> simp [get_send_tokens_message, hp, hq]

/-- Witness for C6 on the two example payments. -/
theorem claim_C6_instruction_kinds_witness :
    get_send_tokens_message exState tokPayment false =
      .WasmExecute tokenAddr (.Transfer bobAddr 7) [] ∧
    get_send_tokens_message exState natPayment false =
      .BankSend bobAddr [{ denom := junoDenom, amount := 5 }] := by
  have h := claim_C6_instruction_kinds exState tokPayment natPayment tokenAddr
    false rfl rfl
  simpa [tokPayment, natPayment] using h

/-- C7: `paid` and `stopped` are one-way latches: no contract invocation
flips either flag of a stored obligation back from true to false. -/
theorem claim_C7_flags_one_way (s : Storage) (h : Reachable s) (st : Step)
    (k : Nat) (p p2 : PaymentState) (hp : mapLoad k s.payments = some p)
    (hp2 : mapLoad k (stepStorage st s).payments = some p2) :
    (p.paid = true → p2.paid = true) ∧
      (p.stopped = true → p2.stopped = true) := by
  rcases stepStorage_mapLoad (reachable_WF h) st k hp with h1 | h1 | h1 <;>
    rw [h1] at hp2 <;> injection hp2 with hp2 <;> subst hp2 <;> simp

/-- Witness for C7: payment 1 stays paid across a StopPayment of payment 2
on the post-Sweep state. -/
theorem claim_C7_flags_one_way_witness :
    (paidP1.paid = true → paidP1.paid = true) ∧
      (paidP1.stopped = true → paidP1.stopped = true) :=
  claim_C7_flags_one_way sPaid
    (Reachable.step payStep (Reachable.init ownerAddr [natPayment, tokPayment]))
    stopStep2 1 paidP1 paidP1 (by decide) (by decide)

/-- The asset shape the specification claims for every stored obligation,
written from the spec's words: a discriminated choice with exactly one
populated variant — either a native denomination (non-empty `denom`, no
token reference) or a fungible-token contract reference (no denomination) —
never both and never neither. -/
def exactlyOneAssetVariant (p : Payment) : Prop :=
  (p.token_address = none ∧ p.denom ≠ "") ∨
    (p.token_address ≠ none ∧ p.denom = "")

/-- A payment whose native and token asset fields are both populated; the
source's two-field representation accepts and stores it as-is. -/
def bothPayment : Payment :=
  { recipient := bobAddr, amount := 9, denom := junoDenom,
    token_address := some tokenAddr, time := .never }

/-- C8 counterexample: a stored obligation can have both the denomination
and the token contract reference populated, so the stored asset is not a
discriminated choice with exactly one populated variant. -/
theorem claim_C8_asset_shape_cex :
    mapLoad 1 (instantiate ownerAddr [bothPayment]).payments =
      some { payment := bothPayment, paid := false, stopped := false, id := 1 } ∧
    bothPayment.token_address ≠ none ∧
    bothPayment.denom ≠ "" ∧
    ¬ exactlyOneAssetVariant bothPayment := by
  refine ⟨by decide, by decide, by decide, ?_⟩
  intro hc
  rcases hc with ⟨h1, -⟩ | ⟨-, h2⟩
  · exact absurd h1 (by decide)
  · exact absurd h2 (by decide)

/-- C8 amended: every obligation's asset is interpreted as exactly one
variant, discriminated solely by `token_address` — the emitted instruction
is always exactly one of a bank transfer or a token contract call, a token
call precisely when `token_address` is populated — although the stored
representation also keeps a (then ignored) `denom` string. -/
theorem claim_C8_asset_discriminated (s : Storage) (p : Payment) (refund : Bool) :
    (isBankMsg (get_send_tokens_message s p refund) = true ∨
      isWasmMsg (get_send_tokens_message s p refund) = true) ∧
    ¬(isBankMsg (get_send_tokens_message s p refund) = true ∧
      isWasmMsg (get_send_tokens_message s p refund) = true) ∧
    (isWasmMsg (get_send_tokens_message s p refund) = true ↔
      p.token_address ≠ none) := by
  cases hp : p.token_address <;>
    simp [get_send_tokens_message, hp, isBankMsg, isWasmMsg]

/-- C9: a populated `token_address` always produces the token contract call,
with `denom` completely ignored (changing it does not change the
instruction); the native bank transfer is produced exactly when
`token_address` is `None`. -/
theorem claim_C9_denom_ignored (s : Storage) (p q : Payment) (t : Addr)
    (d : String) (refund : Bool)
    (hp : p.token_address = some t) (hq : q.token_address = none) :
    isWasmMsg (get_send_tokens_message s p refund) = true ∧
    get_send_tokens_message s { p with denom := d } refund =
      get_send_tokens_message s p refund ∧
    isBankMsg (get_send_tokens_message s q refund) = true := by
  refine ⟨?_, ?_, ?_⟩ <;> simp [get_send_tokens_message, hp, hq, isWasmMsg, isBankMsg]

/-- Witness for C9: the token payment's instruction is a contract call and
does not change when its denomination string is replaced. -/
theorem claim_C9_denom_ignored_witness :
    isWasmMsg (get_send_tokens_message exState tokPayment false) = true ∧
    get_send_tokens_message exState { tokPayment with denom := otherDenom } false =
      get_send_tokens_message exState tokPayment false ∧
    isBankMsg (get_send_tokens_message exState natPayment false) = true :=
  claim_C9_denom_ignored exState tokPayment natPayment tokenAddr otherDenom
    false rfl rfl

/-- C10: a successful StopPayment refunds to the owner recorded at the
moment of the call: after UpdateOwner, stopping an obligation refunds the
new owner — never the previous owner, never the obligation's recipient. -/
theorem claim_C10_refund_current_owner (s : Storage) (newOwner : Addr)
    (id : Nat) (p : PaymentState) (hload : mapLoad id s.payments = some p)
    (hpaid : p.paid = false) (hstop : p.stopped = false) :
    ∃ s2,
      execute_stop_payment newOwner
          (execute_update_config s.config.owner newOwner s).2 id =
        (.ok [get_send_tokens_message s2 p.payment true], s2) ∧
      s2.config.owner = newOwner ∧
      msgRecipient (get_send_tokens_message s2 p.payment true) = newOwner ∧
      (newOwner ≠ s.config.owner →
        msgRecipient (get_send_tokens_message s2 p.payment true) ≠
          s.config.owner) ∧
      (newOwner ≠ p.payment.recipient →
        msgRecipient (get_send_tokens_message s2 p.payment true) ≠
          p.payment.recipient) := by
  have h1 : (execute_update_config s.config.owner newOwner s).2 =
      { s with config := { owner := newOwner } } := by
    simp [execute_update_config]
  set s1 : Storage := { s with config := { owner := newOwner } } with hs1
  have hload1 : mapLoad id s1.payments = some p := hload
  obtain ⟨m2, hu, hexec, hl1, hl2, hr, ha⟩ :=
    execute_stop_spec s1 id p hload1 hpaid hstop
  have hown : s1.config.owner = newOwner := rfl
  rw [hown] at hexec
  refine ⟨{ s1 with payments := m2 }, ?_, rfl, ?_, ?_, ?_⟩
  · rw [h1]
    exact hexec
  · rw [hr]
  · intro hne
    rw [hr, hown]
    exact hne
  · intro hne
    rw [hr, hown]
    exact hne

/-- Witness for C10: after transferring ownership, stopping payment 1
refunds the new owner. -/
theorem claim_C10_refund_current_owner_witness :
    (execute_stop_payment newOwnerAddr
        (execute_update_config exState.config.owner newOwnerAddr exState).2 1).1 =
      .ok [CosmosMsg.BankSend newOwnerAddr [{ denom := junoDenom, amount := 5 }]] ∧
    newOwnerAddr ≠ ownerAddr ∧ newOwnerAddr ≠ natPayment.recipient := by
  obtain ⟨s2, hexec, hconf, -, -, -⟩ :=
    claim_C10_refund_current_owner exState newOwnerAddr 1
      { payment := natPayment, paid := false, stopped := false, id := 1 }
      (by decide) rfl rfl
  refine ⟨?_, by decide, by decide⟩
  rw [hexec]
  have hmsg : get_send_tokens_message s2 natPayment true =
      CosmosMsg.BankSend newOwnerAddr [{ denom := junoDenom, amount := 5 }] := by
    simp [get_send_tokens_message, natPayment, hconf]
  simp only
  rw [hmsg]
